import Mathlib

/-!
Shallow embedding of the core of `rn-structured-logger` (a structured-logging
library for React Native): log levels, the sampler, the rate limiter, the
redactor, the asynchronous batching queue, the Logger pipeline and the
global registry, together with theorems checking the specification's claims
against these definitions.

Conventions of the embedding:
* Machine time (`Date.now()`) is an explicit `Int` parameter (milliseconds).
* `Math.random()` is an explicit rational parameter `rand` (the draw in `[0,1)`).
* JavaScript promises that may reject are modelled as `Except String`.
* Mutable object state is modelled by explicit state passing; ghost fields
  (`inFlight`, `delivered`, `pushedLog`, `policyCalls`) record the observable
  interaction history and are not read by the transition functions.
-/

namespace RNLogger

/-- The six severity levels, `src/types.ts` (`LogLevel`). -/
inductive Level where
  | trace
  | debug
  | info
  | warn
  | error
  | fatal
deriving DecidableEq, Repr, BEq

/-- `const LEVELS: LogLevel[]` in `Logger.ts`: ordered from most verbose to
most severe. -/
def LEVELS : List Level := [.trace, .debug, .info, .warn, .error, .fatal]

/-- `LEVELS.indexOf(level)`. -/
def rank (l : Level) : Nat := LEVELS.indexOf l

/-- `Logger.allowed`: `LEVELS.indexOf(level) >= LEVELS.indexOf(this.cfg.level)`. -/
def allowed (level threshold : Level) : Bool := rank level ≥ rank threshold

/-! ## Sampler (`src/utils/sampler.ts`) -/

/-- `shouldSample(level, rate)`: warn/error/fatal always pass; otherwise the
uniform draw `rand` (the value of `Math.random()`) is compared with `rate`. -/
def shouldSample (level : Level) (rate : ℚ) (rand : ℚ) : Bool :=
  if level = .error then true
  else if level = .fatal then true
  else if level = .warn then true
  else decide (rand < rate)

/-! ## Rate limiter (`src/utils/rateLimiter.ts`) -/

/-- The closure state of `makeRateLimiter`: the captured `maxPerMin` and the
mutable `count` and `windowStart`. -/
structure RLState where
  maxPerMin : Nat
  count : Nat
  windowStart : Int
deriving DecidableEq, Repr

/-- `makeRateLimiter(maxPerMin)` evaluated at creation time `now`
(`windowStart = Date.now()`, `count = 0`). -/
def makeRateLimiter (maxPerMin : Nat) (now : Int) : RLState :=
  { maxPerMin := maxPerMin, count := 0, windowStart := now }

/-- One call of the limiter closure at time `now`: lazily reset the window
when ≥ 60000 ms have elapsed, then increment and admit iff the
post-increment count is ≤ `maxPerMin`. -/
def rlStep (now : Int) (s : RLState) : RLState × Bool :=
  let s := if now - s.windowStart ≥ 60000 then { s with windowStart := now, count := 0 } else s
  let c := s.count + 1
  ({ s with count := c }, decide (c ≤ s.maxPerMin))

/-! ## Redactor (`src/utils/redactor.ts`) -/

/-- Closed variant type for dynamic JS context values (null, bool, number,
string, array, nested object), as the spec's design notes prescribe for the
redaction traversal. -/
inductive JVal where
  | null : JVal
  | bool : Bool → JVal
  | num : Int → JVal
  | str : String → JVal
  | arr : List JVal → JVal
  | obj : List (String × JVal) → JVal
deriving Repr, BEq

/-- `DEFAULT_SENSITIVE_KEYS` from `redactor.ts`. -/
def DEFAULT_SENSITIVE_KEYS : List String :=
  ["password", "pass", "token", "authorization", "secret", "otp", "pin",
   "creditcard", "sessionid"]

/-- `k.toLowerCase()`: character-wise lower-casing (exact for the ASCII key
names the redactor deals with). -/
def toLowerStr (s : String) : String := ⟨s.data.map Char.toLower⟩

/-- The lower-cased key set built at the top of `makeRedactor`:
`new Set([...DEFAULT_SENSITIVE_KEYS, ...extraKeys].map(k => k.toLowerCase()))`. -/
def sensitiveKeySet (extraKeys : List String) : List String :=
  (DEFAULT_SENSITIVE_KEYS ++ extraKeys).map (fun k => toLowerStr k)

mutual

/-- The inner `redactValue` closure: arrays map recursively, objects replace
values of sensitive keys by `'[REDACTED]'` and recurse elsewhere,
non-container values pass through. -/
def redactValue (keys : List String) : JVal → JVal
  | .null => .null
  | .bool b => .bool b
  | .num n => .num n
  | .str s => .str s
  | .arr xs => .arr (redactList keys xs)
  | .obj fs => .obj (redactFields keys fs)

/-- `value.map(redactValue)` for arrays. -/
def redactList (keys : List String) : List JVal → List JVal
  | [] => []
  | x :: xs => redactValue keys x :: redactList keys xs

/-- The `Object.entries` loop of `redactValue`:
`obj[k] = keys.has(k.toLowerCase()) ? '[REDACTED]' : redactValue(v)`. -/
def redactFields (keys : List String) : List (String × JVal) → List (String × JVal)
  | [] => []
  | (k, v) :: fs =>
      (k, if keys.contains (toLowerStr k) then JVal.str "[REDACTED]" else redactValue keys v)
        :: redactFields keys fs

end

/-! ## Record model (`src/types.ts`) -/

/-- `LogRecord` from `types.ts`; `ctx` and `device` are JS objects, modelled
as ordered field lists. -/
structure LogRecord where
  ts : Int
  level : Level
  msg : String
  ns : Option String
  ctx : Option (List (String × JVal))
  correlationId : Option String
  device : Option (List (String × JVal))
deriving Repr, BEq

/-- The record-level function returned by `makeRedactor(extraKeys)`: skip
records without a `ctx` (falsy), otherwise deep-redact the `ctx` object. -/
def makeRedactor (extraKeys : List String) (record : LogRecord) : LogRecord :=
  match record.ctx with
  | none => record
  | some fs => { record with ctx := some (redactFields (sensitiveKeySet extraKeys) fs) }

/-! Paths into a `JVal` tree, used to state the deep-redaction claim. -/

/-- One step of a path into a `JVal`: an object key or an array index. -/
inductive PathEl where
  | key : String → PathEl
  | idx : Nat → PathEl
deriving DecidableEq, Repr

/-- Field lookup in an ordered object (JS objects have unique keys; first
match wins). -/
def lookupField : List (String × JVal) → String → Option JVal
  | [], _ => none
  | (k, v) :: fs, k' => if k = k' then some v else lookupField fs k'

/-- Follow a path through a `JVal` tree. -/
def lookup : JVal → List PathEl → Option JVal
  | v, [] => some v
  | .obj fs, .key k :: p =>
      match lookupField fs k with
      | some w => lookup w p
      | none => none
  | .arr xs, .idx i :: p =>
      match xs[i]? with
      | some w => lookup w p
      | none => none
  | _, _ => none

/-- A path is clean for a key set when none of its object keys is sensitive. -/
def cleanPath (keys : List String) (p : List PathEl) : Prop :=
  ∀ el ∈ p, ∀ k, el = PathEl.key k → keys.contains (toLowerStr k) = false

/-- Containers are arrays and objects; everything else is a plain value. -/
def JVal.isContainer : JVal → Bool
  | .arr _ => true
  | .obj _ => true
  | _ => false

/-! ## Batching queue (`src/utils/queue.ts`, `AsyncBatchQueue`) -/

/-- State of an `AsyncBatchQueue<T>`.  `buffer`, `timer` and `flushing` are
the object's fields (`timer` holds the `setTimeout` deadline when armed).
`inFlight`, `delivered` and `pushedLog` are ghost history: the snapshot
currently being processed by `flushFn`, every batch handed to `flushFn` in
order, and every item ever pushed in order. -/
structure QState (T : Type) where
  buffer : List T
  timer : Option Int
  flushing : Bool
  inFlight : List T
  delivered : List (List T)
  pushedLog : List T
deriving Repr, BEq

/-- A fresh queue. -/
def QState.init {T : Type} : QState T :=
  { buffer := [], timer := none, flushing := false,
    inFlight := [], delivered := [], pushedLog := [] }

/-- The synchronous prefix of `flush()`: clear the timer, return if a flush
is in progress or the buffer is empty, otherwise splice the whole buffer out
as one snapshot, set the in-flight flag and invoke `flushFn` with the
snapshot (recorded in `delivered`/`inFlight`). -/
def QState.flushBegin {T : Type} (s : QState T) : QState T :=
  let s := { s with timer := none }
  if s.flushing then s
  else if s.buffer.isEmpty then s
  else { s with
         flushing := true
         buffer := []
         inFlight := s.buffer
         delivered := s.delivered ++ [s.buffer] }

/-- The `finally` block of `flush()`: the awaited `flushFn` has settled and
the in-flight flag is cleared (whether it succeeded or failed). -/
def QState.flushEnd {T : Type} (s : QState T) : QState T :=
  { s with flushing := false, inFlight := [] }

/-- A whole awaited `flush()` call whose callback outcome is computed by
`fn` (a rejected promise is `Except.error`).  Returns the final state and
the outcome seen by the awaiter. -/
def QState.flushRun {T : Type} (fn : List T → Except String Unit) (s : QState T) :
    QState T × Except String Unit :=
  let s1 : QState T := { s with timer := none }
  if s1.flushing then (s1, Except.ok ())
  else if s1.buffer.isEmpty then (s1, Except.ok ())
  else
    let items := s1.buffer
    let s2 : QState T := { s1 with
                           flushing := true
                           buffer := []
                           inFlight := items
                           delivered := s1.delivered ++ [items] }
    (s2.flushEnd, fn items)

/-- `push(item)`: append to the buffer; if the buffer length reached
`batchSize`, fire `flush()` (its synchronous prefix) and return; otherwise
arm a timer for `intervalMs` only when none is pending. -/
def QState.push {T : Type} (batchSize : Nat) (intervalMs : Int) (now : Int)
    (x : T) (s : QState T) : QState T :=
  let s := { s with buffer := s.buffer ++ [x], pushedLog := s.pushedLog ++ [x] }
  if s.buffer.length ≥ batchSize then s.flushBegin
  else
    match s.timer with
    | some _ => s
    | none => { s with timer := some (now + intervalMs) }

/-- Events observable by a queue: a push at some time, a `flush()` call
(timer fire, size trigger or explicit call — its synchronous prefix), and
the settling of an in-flight callback. -/
inductive QOp (T : Type) where
  | push : T → Int → QOp T
  | flushCall : QOp T
  | flushDone : QOp T

/-- Interpretation of one event. -/
def QState.step {T : Type} (batchSize : Nat) (intervalMs : Int)
    (s : QState T) : QOp T → QState T
  | .push x now => s.push batchSize intervalMs now x
  | .flushCall => s.flushBegin
  | .flushDone => s.flushEnd

/-- Run a queue from its initial state over a list of events. -/
def QState.run {T : Type} (batchSize : Nat) (intervalMs : Int)
    (ops : List (QOp T)) : QState T :=
  ops.foldl (QState.step batchSize intervalMs) QState.init

/-! ## Logger (`src/Logger.ts`) -/

/-- `LoggerConfig` from `types.ts`.  Transports are modelled by their
`write` behaviour on a batch; the redactor is the configured record
transformer. -/
structure LoggerConfig where
  level : Level
  transports : List (List LogRecord → Except String Unit)
  ns : Option String
  redactor : Option (LogRecord → LogRecord)
  sampling : Option ℚ
  rateLimit : Option Nat
  batch : Option (Nat × Int)
  correlationId : Option String
  device : Option (List (String × JVal))

/-- `cfg.batch?.size ?? 20` in the constructor. -/
def batchSizeOf (cfg : LoggerConfig) : Nat := (cfg.batch.map Prod.fst).getD 20

/-- `cfg.batch?.intervalMs ?? 1500` in the constructor. -/
def intervalMsOf (cfg : LoggerConfig) : Int := (cfg.batch.map Prod.snd).getD 1500

/-- Mutable state owned by one Logger: its queue, the rate-limiter closure
state (present iff `cfg.rateLimit` was set at construction), and the ghost
count of `process` invocations. -/
structure LoggerState where
  q : QState LogRecord
  rl : Option RLState
  policyCalls : Nat

/-- The constructor's state initialisation at time `now`: empty queue, and a
rate limiter iff `cfg.rateLimit` is configured. -/
def LoggerState.init (cfg : LoggerConfig) (now : Int) : LoggerState :=
  { q := QState.init,
    rl := cfg.rateLimit.map (fun n => makeRateLimiter n now),
    policyCalls := 0 }

/-- The ambient machine inputs of one log call: `Date.now()` and the
`Math.random()` draw. -/
structure Env where
  now : Int
  rand : ℚ

/-- `Logger.buildRecord`. -/
def buildRecord (cfg : LoggerConfig) (level : Level) (msg : String)
    (ctx : Option (List (String × JVal))) (now : Int) : LogRecord :=
  { ts := now, level := level, msg := msg, ns := cfg.ns, ctx := ctx,
    correlationId := cfg.correlationId, device := cfg.device }

/-- The tail of `Logger.process` after the rate-limit gate: sampling with
`cfg.sampling?.rate ?? 1`, then `queue.push(record)`. -/
def processTail (cfg : LoggerConfig) (env : Env) (record : LogRecord)
    (st : LoggerState) : LoggerState :=
  let rate := cfg.sampling.getD 1
  if shouldSample record.level rate env.rand then
    { st with q := st.q.push (batchSizeOf cfg) (intervalMsOf cfg) env.now record }
  else st

/-- `Logger.process`: apply the redactor if configured, then the rate
limiter (which mutates its counter even when it rejects), then sampling,
then enqueue.  `policyCalls` counts invocations of `process`. -/
def process (cfg : LoggerConfig) (env : Env) (record : LogRecord)
    (st : LoggerState) : LoggerState :=
  let st := { st with policyCalls := st.policyCalls + 1 }
  let record := match cfg.redactor with
    | some f => f record
    | none => record
  match st.rl with
  | some r =>
      let res := rlStep env.now r
      let st := { st with rl := some res.1 }
      if res.2 then processTail cfg env record st else st
  | none => processTail cfg env record st

/-- The common body of the six severity methods:
`if (this.allowed(level)) this.process(this.buildRecord(level, msg, ctx))`. -/
def logAt (cfg : LoggerConfig) (level : Level) (msg : String)
    (ctx : Option (List (String × JVal))) (env : Env) (st : LoggerState) : LoggerState :=
  if allowed level cfg.level then
    process cfg env (buildRecord cfg level msg ctx env.now) st
  else st

/-- `Logger.trace`. -/
def Logger.trace (cfg : LoggerConfig) (msg : String)
    (ctx : Option (List (String × JVal))) (env : Env) (st : LoggerState) : LoggerState :=
  if allowed .trace cfg.level then
    process cfg env (buildRecord cfg .trace msg ctx env.now) st
  else st

/-- `Logger.debug`. -/
def Logger.debug (cfg : LoggerConfig) (msg : String)
    (ctx : Option (List (String × JVal))) (env : Env) (st : LoggerState) : LoggerState :=
  if allowed .debug cfg.level then
    process cfg env (buildRecord cfg .debug msg ctx env.now) st
  else st

/-- `Logger.info`. -/
def Logger.info (cfg : LoggerConfig) (msg : String)
    (ctx : Option (List (String × JVal))) (env : Env) (st : LoggerState) : LoggerState :=
  if allowed .info cfg.level then
    process cfg env (buildRecord cfg .info msg ctx env.now) st
  else st

/-- `Logger.warn`. -/
def Logger.warn (cfg : LoggerConfig) (msg : String)
    (ctx : Option (List (String × JVal))) (env : Env) (st : LoggerState) : LoggerState :=
  if allowed .warn cfg.level then
    process cfg env (buildRecord cfg .warn msg ctx env.now) st
  else st

/-- `Logger.error`. -/
def Logger.error (cfg : LoggerConfig) (msg : String)
    (ctx : Option (List (String × JVal))) (env : Env) (st : LoggerState) : LoggerState :=
  if allowed .error cfg.level then
    process cfg env (buildRecord cfg .error msg ctx env.now) st
  else st

/-- `Logger.fatal`. -/
def Logger.fatal (cfg : LoggerConfig) (msg : String)
    (ctx : Option (List (String × JVal))) (env : Env) (st : LoggerState) : LoggerState :=
  if allowed .fatal cfg.level then
    process cfg env (buildRecord cfg .fatal msg ctx env.now) st
  else st

/-- Dispatch from a level to the corresponding severity method. -/
def severityMethod : Level → LoggerConfig → String → Option (List (String × JVal)) →
    Env → LoggerState → LoggerState
  | .trace => Logger.trace
  | .debug => Logger.debug
  | .info => Logger.info
  | .warn => Logger.warn
  | .error => Logger.error
  | .fatal => Logger.fatal

/-- `Promise.all` over settled unit promises: rejects with the first
rejection, resolves otherwise. -/
def promiseAll (rs : List (Except String Unit)) : Except String Unit :=
  match rs.findSome? (fun r => match r with | .error e => some e | .ok _ => none) with
  | some e => Except.error e
  | none => Except.ok ()

/-- The batch-flush callback installed by the Logger constructor: start
`t.write(items)` on every configured transport and await them all with
`Promise.all`.  Returns each transport's own outcome and the aggregate. -/
def queueFlushFn (cfg : LoggerConfig) (items : List LogRecord) :
    List (Except String Unit) × Except String Unit :=
  let results := cfg.transports.map (fun w => w items)
  (results, promiseAll results)

/-- `Logger.child`: namespace concatenation with JS string truthiness
(`this.cfg.namespace ? parent + ":" + suffix : suffix`), on a copy of the
configuration. -/
def childCfg (cfg : LoggerConfig) (suffix : String) : LoggerConfig :=
  let ns := match cfg.ns with
    | some s => if s = "" then suffix else s ++ ":" ++ suffix
    | none => suffix
  { cfg with ns := some ns }

/-! ## Registry (`src/LogManager.ts`) -/

/-- `initLogger(cfg)`: construct a new root Logger (represented by its
configuration), store it, return it.  The previous registry state is
replaced unconditionally. -/
def initLogger (cfg : LoggerConfig) (_st : Option LoggerConfig) :
    LoggerConfig × Option LoggerConfig :=
  (cfg, some cfg)

/-- `getLogger(namespace?)`: throw the uninitialised error when no root is
stored; otherwise return the root, or `root.child(namespace)` when a truthy
namespace is given (`namespace ? instance.child(namespace) : instance`). -/
def getLogger (ns : Option String) (st : Option LoggerConfig) :
    Except String LoggerConfig :=
  match st with
  | none => Except.error "Logger not initialised. Call initLogger() first."
  | some root =>
      Except.ok (match ns with
        | some n => if n = "" then root else childCfg root n
        | none => root)

/-! ## Sample data used by witnesses -/

/-- A minimal configuration: threshold `info`, no transports, no optional
policy. -/
def sampleCfg : LoggerConfig :=
  { level := .info
    transports := []
    ns := none
    redactor := none
    sampling := none
    rateLimit := none
    batch := none
    correlationId := none
    device := none }

/-- A minimal record with no context. -/
def sampleRecord : LogRecord :=
  { ts := 0
    level := .info
    msg := ""
    ns := none
    ctx := none
    correlationId := none
    device := none }

/-- The spec's redaction example context:
`{password: 'x', nested: {token: 'y'}, safe: 'z'}`. -/
def exampleCtx : List (String × JVal) :=
  [("password", .str "x"), ("nested", .obj [("token", .str "y")]), ("safe", .str "z")]

/-! ## Theorems -/

/-- C7: `shouldSample` always passes warn/error/fatal; for trace/debug/info
it passes exactly when the uniform draw is strictly below the rate; hence
`shouldSample('info', 0)` is always false, `shouldSample('info', 1)` is
always true, and error/warn/fatal at rate 0 are always true. -/
theorem shouldSample_spec (rate rand : ℚ) :
    shouldSample .warn rate rand = true ∧
    shouldSample .error rate rand = true ∧
    shouldSample .fatal rate rand = true ∧
    (shouldSample .trace rate rand = true ↔ rand < rate) ∧
    (shouldSample .debug rate rand = true ↔ rand < rate) ∧
    (shouldSample .info rate rand = true ↔ rand < rate) ∧
    (0 ≤ rand → shouldSample .info 0 rand = false) ∧
    (rand < 1 → shouldSample .info 1 rand = true) ∧
    shouldSample .error 0 rand = true ∧
    shouldSample .warn 0 rand = true ∧
    shouldSample .fatal 0 rand = true := by
  refine ⟨rfl, rfl, rfl, ?_, ?_, ?_, ?_, ?_, rfl, rfl, rfl⟩
  · simp [shouldSample]
  · simp [shouldSample]
  · simp [shouldSample]
  · intro h
    simp [shouldSample, not_lt.mpr h]
  · intro h
    simp [shouldSample, h]

/-- C7 witness: instantiation at `rate = 0` and `rand = 1/2`. -/
theorem shouldSample_spec_witness :
    shouldSample .info 0 (1/2) = false ∧ shouldSample .info 1 (1/2) = true := by
  refine ⟨(shouldSample_spec 0 (1/2)).2.2.2.2.2.2.1 ?_,
          (shouldSample_spec 1 (1/2)).2.2.2.2.2.2.2.1 ?_⟩ <;> norm_num

/-- C5: within a window (< 60000 ms since its start) each limiter call
increments the counter, keeps the window start, and admits iff the
post-increment count is ≤ `maxPerMin`; at ≥ 60000 ms the window lazily
resets to the current call; with `maxPerMin = 2`, three calls inside one
window give admitted, admitted, dropped. -/
theorem rateLimiter_spec (s : RLState) (now : Int) :
    (now - s.windowStart < 60000 →
       (rlStep now s).1 = { s with count := s.count + 1 } ∧
       ((rlStep now s).2 = true ↔ s.count + 1 ≤ s.maxPerMin)) ∧
    (now - s.windowStart ≥ 60000 →
       (rlStep now s).1 = { s with windowStart := now, count := 1 } ∧
       ((rlStep now s).2 = true ↔ 1 ≤ s.maxPerMin)) ∧
    ((rlStep 0 (makeRateLimiter 2 0)).2 = true ∧
     (rlStep 1 (rlStep 0 (makeRateLimiter 2 0)).1).2 = true ∧
     (rlStep 2 (rlStep 1 (rlStep 0 (makeRateLimiter 2 0)).1).1).2 = false) := by
  refine ⟨?_, ?_, by decide, by decide, by decide⟩
  · intro h
    simp [rlStep, not_le.mpr h]
  · intro h
    simp [rlStep, h]

/-- C5 witness: a call 3 ms into the window of a fresh limiter with
`maxPerMin = 5`, and a call 70000 ms later resetting the window. -/
theorem rateLimiter_spec_witness :
    ((rlStep 3 (makeRateLimiter 5 0)).1
        = { makeRateLimiter 5 0 with count := (makeRateLimiter 5 0).count + 1 } ∧
     ((rlStep 3 (makeRateLimiter 5 0)).2 = true ↔
        (makeRateLimiter 5 0).count + 1 ≤ (makeRateLimiter 5 0).maxPerMin)) ∧
    ((rlStep 70000 (makeRateLimiter 5 0)).1
        = { makeRateLimiter 5 0 with windowStart := 70000, count := 1 } ∧
     ((rlStep 70000 (makeRateLimiter 5 0)).2 = true ↔
        1 ≤ (makeRateLimiter 5 0).maxPerMin)) :=
  ⟨(rateLimiter_spec (makeRateLimiter 5 0) 3).1 (by decide),
   (rateLimiter_spec (makeRateLimiter 5 0) 70000).2.1 (by decide)⟩

/-- C10: when no `batch` configuration is given, the Logger constructor
builds its queue with batch size 20 and flush interval 1500 ms. -/
theorem batchDefaults_spec (cfg : LoggerConfig) (h : cfg.batch = none) :
    batchSizeOf cfg = 20 ∧ intervalMsOf cfg = 1500 := by
  simp [batchSizeOf, intervalMsOf, h]

/-- C10 witness: the sample configuration has no `batch` field. -/
theorem batchDefaults_spec_witness :
    batchSizeOf sampleCfg = 20 ∧ intervalMsOf sampleCfg = 1500 :=
  batchDefaults_spec sampleCfg rfl

/-- C9: before `initLogger`, `getLogger` fails with the uninitialised
error; after `initLogger(cfg)` the registry stores the new root (replacing
any previous one, with no error raised — `initLogger` is total), a
namespace-less `getLogger` returns the root, and a non-empty namespace
returns `root.child(ns)`. -/
theorem registry_spec (cfg cfg2 root : LoggerConfig) (st st2 : Option LoggerConfig)
    (ns : Option String) (n : String) (hn : n ≠ "") :
    getLogger ns none = Except.error "Logger not initialised. Call initLogger() first." ∧
    initLogger cfg st = (cfg, some cfg) ∧
    getLogger none (some root) = Except.ok root ∧
    getLogger (some n) (some root) = Except.ok (childCfg root n) ∧
    getLogger none (initLogger cfg st).2 = Except.ok cfg ∧
    (initLogger cfg2 (initLogger cfg st2).2).2 = some cfg2 := by
  refine ⟨rfl, rfl, rfl, ?_, rfl, rfl⟩
  simp [getLogger, hn]

/-- C9 witness: concrete registry interactions with namespace `"a"`. -/
theorem registry_spec_witness :
    getLogger (some "a") (some sampleCfg) = Except.ok (childCfg sampleCfg "a") :=
  (registry_spec sampleCfg sampleCfg sampleCfg none none none "a"
      (by decide)).2.2.2.1

/-- C8: a child logger's namespace is `parent ++ ":" ++ suffix` when the
parent has a (truthy) namespace and the suffix alone otherwise; records
built by the child carry that namespace; from a root with no namespace,
`child('a').child('b')` yields records with namespace `"a:b"`. -/
theorem child_namespace_spec (cfg : LoggerConfig) (s : String) :
    (∀ p, cfg.ns = some p → p ≠ "" → (childCfg cfg s).ns = some (p ++ ":" ++ s)) ∧
    (cfg.ns = none → (childCfg cfg s).ns = some s) ∧
    (∀ level msg ctx now,
        (buildRecord (childCfg cfg s) level msg ctx now).ns = (childCfg cfg s).ns) ∧
    (cfg.ns = none → (childCfg (childCfg cfg "a") "b").ns = some "a:b") ∧
    (cfg.ns = none → ∀ level msg ctx now,
        (buildRecord (childCfg (childCfg cfg "a") "b") level msg ctx now).ns
          = some "a:b") := by
  refine ⟨?_, ?_, ?_, ?_, ?_⟩
  · intro p hp hne
    simp [childCfg, hp, hne]
  · intro h
    simp [childCfg, h]
  · intro level msg ctx now
    rfl
  · intro h
    simp [childCfg, h]
  · intro h level msg ctx now
    simp [buildRecord, childCfg, h]

/-- C8 witness: children of the namespace-less sample configuration. -/
theorem child_namespace_spec_witness :
    (childCfg sampleCfg "x").ns = some "x" ∧
    (childCfg (childCfg sampleCfg "a") "b").ns = some "a:b" ∧
    (buildRecord (childCfg (childCfg sampleCfg "a") "b") .info "m" none 0).ns
      = some "a:b" :=
  ⟨(child_namespace_spec sampleCfg "x").2.1 rfl,
   (child_namespace_spec sampleCfg "x").2.2.2.1 rfl,
   (child_namespace_spec sampleCfg "x").2.2.2.2 rfl .info "m" none 0⟩

/-- Helper: `promiseAll` resolves exactly when every settled promise in the
list resolved. -/
lemma promiseAll_ok_iff (rs : List (Except String Unit)) :
    promiseAll rs = Except.ok () ↔ ∀ r ∈ rs, r = Except.ok () := by
  induction rs with
  | nil => simp [promiseAll]
  | cons r rs ih =>
      cases r with
      | error e => simp [promiseAll, List.findSome?]
      | ok u =>
          cases u
          simpa [promiseAll, List.findSome?] using ih

/-- C4: the batch-flush callback starts `write` on every configured
transport (one result per transport, the `i`-th being transport `i`'s own
outcome on exactly the flushed items, independent of sibling failures), and
the aggregate outcome is success iff every transport succeeded. -/
theorem transportDispatch_spec (cfg : LoggerConfig) (items : List LogRecord) :
    (queueFlushFn cfg items).1.length = cfg.transports.length ∧
    (∀ i, (queueFlushFn cfg items).1.get? i
        = (cfg.transports.get? i).map (fun w => w items)) ∧
    ((queueFlushFn cfg items).2 = Except.ok () ↔
        ∀ r ∈ (queueFlushFn cfg items).1, r = Except.ok ()) := by
  refine ⟨by simp [queueFlushFn], ?_, ?_⟩
  · intro i
    simp [queueFlushFn]
  · exact promiseAll_ok_iff _

/-- C2: an awaited `flush()` always cancels the pending timer; it is a
no-op (beyond the timer) when a flush is in progress or the buffer is
empty, invoking no callback and starting no second flush; otherwise it
hands the whole buffer to the callback as one snapshot, empties the
buffer, propagates the callback's outcome to the awaiter, and clears the
in-flight flag even on failure so a later flush may proceed. -/
theorem queueFlush_spec {T : Type} (fn : List T → Except String Unit) (s : QState T) :
    ((QState.flushRun fn s).1.timer = none) ∧
    (s.flushing = true →
        QState.flushRun fn s = ({ s with timer := none }, Except.ok ())) ∧
    (s.flushing = false → s.buffer = [] →
        QState.flushRun fn s = ({ s with timer := none }, Except.ok ())) ∧
    (s.flushing = false → s.buffer ≠ [] →
        (QState.flushRun fn s).1.buffer = [] ∧
        (QState.flushRun fn s).1.delivered = s.delivered ++ [s.buffer] ∧
        (QState.flushRun fn s).2 = fn s.buffer ∧
        (QState.flushRun fn s).1.flushing = false) := by
  refine ⟨?_, ?_, ?_, ?_⟩
  · by_cases hf : s.flushing
    · simp [QState.flushRun, hf]
    · by_cases hb : s.buffer.isEmpty
      · simp [QState.flushRun, hf, hb]
      · simp [QState.flushRun, QState.flushEnd, hf, hb]
  · intro hf
    simp [QState.flushRun, hf]
  · intro hf hb
    simp [QState.flushRun, hf, hb]
  · intro hf hb
    simp [QState.flushRun, QState.flushEnd, hf, List.isEmpty_iff, hb]

/-- C2 witness: flushing a one-item buffer with a rejecting callback
propagates the rejection while clearing the in-flight flag. -/
theorem queueFlush_spec_witness :
    (QState.flushRun (fun _ => Except.error "boom")
        { QState.init with buffer := ["a"] }).1.buffer = [] ∧
    (QState.flushRun (fun _ => Except.error "boom")
        { QState.init with buffer := ["a"] }).1.delivered = [["a"]] ∧
    (QState.flushRun (fun _ => Except.error "boom")
        { QState.init with buffer := ["a"] }).2 = Except.error "boom" ∧
    (QState.flushRun (fun _ => Except.error "boom")
        { QState.init with buffer := ["a"] }).1.flushing = false := by
  have h := (queueFlush_spec (T := String) (fun _ => Except.error "boom")
      { QState.init with buffer := ["a"] }).2.2.2 rfl (by decide)
  exact ⟨h.1, h.2.1, h.2.2.1, h.2.2.2⟩

/-- Helper: a push appends the item to the push history, whatever else it
triggers. -/
lemma push_pushedLog {T : Type} (B : Nat) (I now : Int) (x : T) (s : QState T) :
    (QState.push B I now x s).pushedLog = s.pushedLog ++ [x] := by
  by_cases h : s.buffer.length + 1 ≥ B
  · simp [QState.push, QState.flushBegin, h]
    by_cases hf : s.flushing
    · simp [hf]
    · by_cases hb : (s.buffer ++ [x]).isEmpty
      · simp [hf, hb]
      · simp [hf, hb]
  · simp [QState.push, h]
    cases s.timer <;> simp

/-- The no-loss/no-reorder invariant: batches delivered so far, followed by
the current buffer, are exactly the items pushed so far, in order. -/
def qInv {T : Type} (s : QState T) : Prop :=
  s.delivered.flatten ++ s.buffer = s.pushedLog

/-- Helper: `flushBegin` preserves the queue invariant. -/
lemma qInv_flushBegin {T : Type} (s : QState T) (h : qInv s) :
    qInv s.flushBegin := by
  unfold qInv at *
  by_cases hf : s.flushing
  · simpa [QState.flushBegin, hf] using h
  · by_cases hb : s.buffer.isEmpty
    · simpa [QState.flushBegin, hf, hb] using h
    · simpa [QState.flushBegin, hf, hb] using h

/-- Helper: every queue event preserves the queue invariant. -/
lemma qInv_step {T : Type} (B : Nat) (I : Int) (s : QState T) (op : QOp T)
    (h : qInv s) : qInv (QState.step B I s op) := by
  cases op with
  | push x now =>
      have h' : qInv { s with
          buffer := s.buffer ++ [x]
          pushedLog := s.pushedLog ++ [x] } := by
        unfold qInv at *
        simp [← List.append_assoc, h]
      by_cases hb : B ≤ s.buffer.length + 1
      · have := qInv_flushBegin _ h'
        simpa [QState.step, QState.push, hb] using this
      · unfold qInv at *
        simp only [QState.step, QState.push, List.length_append, List.length_cons,
          List.length_nil, Nat.zero_add, hb, if_false]
        cases s.timer <;> simpa using h'
  | flushCall => exact qInv_flushBegin s h
  | flushDone =>
      unfold qInv at *
      simpa [QState.step, QState.flushEnd] using h

/-- Helper: the invariant holds after any run from the initial state. -/
lemma qInv_run {T : Type} (B : Nat) (I : Int) (ops : List (QOp T)) :
    qInv (QState.run B I ops) := by
  have main : ∀ (l : List (QOp T)) (s : QState T), qInv s →
      qInv (l.foldl (QState.step B I) s) := by
    intro l
    induction l with
    | nil => intro s h; exact h
    | cons op l ih =>
        intro s h
        exact ih _ (qInv_step B I s op h)
  exact main ops QState.init rfl

/-- C3: over any event sequence, the batches handed to the callback,
concatenated in order and followed by the current buffer, are exactly the
pushed items in push order (FIFO, no reordering, no loss, no
deduplication); a push appends to the buffer, triggers the flush path as
soon as the buffer length reaches `batchSize`, arms a timer for
`intervalMs` only when none is pending, and while a flush is in flight a
pushed item stays in the buffer and never joins the in-flight batch. -/
theorem queuePush_spec {T : Type} (B : Nat) (I : Int) :
    (∀ ops : List (QOp T),
        (QState.run B I ops).delivered.flatten ++ (QState.run B I ops).buffer
          = (QState.run B I ops).pushedLog) ∧
    (∀ (s : QState T) (x : T) (now : Int),
        (QState.push B I now x s).pushedLog = s.pushedLog ++ [x]) ∧
    (∀ (s : QState T) (x : T) (now : Int),
        s.flushing = false → s.buffer.length + 1 ≥ B →
        (QState.push B I now x s).delivered = s.delivered ++ [s.buffer ++ [x]] ∧
        (QState.push B I now x s).buffer = []) ∧
    (∀ (s : QState T) (x : T) (now : Int),
        s.buffer.length + 1 < B → s.timer = none →
        (QState.push B I now x s).timer = some (now + I) ∧
        (QState.push B I now x s).buffer = s.buffer ++ [x]) ∧
    (∀ (s : QState T) (x : T) (now : Int) (d : Int),
        s.buffer.length + 1 < B → s.timer = some d →
        QState.push B I now x s = { s with
          buffer := s.buffer ++ [x]
          pushedLog := s.pushedLog ++ [x] }) ∧
    (∀ (s : QState T) (x : T) (now : Int),
        s.flushing = true →
        (QState.push B I now x s).inFlight = s.inFlight ∧
        (QState.push B I now x s).buffer = s.buffer ++ [x] ∧
        (QState.push B I now x s).delivered = s.delivered) := by
  refine ⟨qInv_run B I, fun s x now => push_pushedLog B I now x s, ?_, ?_, ?_, ?_⟩
  · intro s x now hf hlen
    have hlen' : B ≤ s.buffer.length + 1 := hlen
    have hne : ¬((s.buffer ++ [x]).isEmpty) := by simp
    simp [QState.push, QState.flushBegin, hlen', hf, hne]
  · intro s x now hlen ht
    have hlen' : ¬(B ≤ s.buffer.length + 1) := by omega
    simp [QState.push, hlen', ht]
  · intro s x now d hlen ht
    have hlen' : ¬(B ≤ s.buffer.length + 1) := by omega
    simp [QState.push, hlen', ht]
  · intro s x now hf
    by_cases hlen : B ≤ s.buffer.length + 1
    · simp [QState.push, QState.flushBegin, hlen, hf]
    · simp [QState.push, hlen]
      cases s.timer <;> simp

/-- C3 witness: with batch size 2, pushing two items delivers them as one
batch in push order; a lone push arms the timer; a push during an
in-flight flush stays out of the in-flight batch. -/
theorem queuePush_spec_witness :
    ((QState.run 2 100 [QOp.push "a" 0, QOp.push "b" 5]).delivered.flatten
        ++ (QState.run 2 100 [QOp.push "a" 0, QOp.push "b" 5]).buffer
        = (QState.run 2 100 [QOp.push "a" 0, QOp.push "b" 5]).pushedLog) ∧
    ((QState.push 2 100 5 "b" (QState.push 2 100 0 "a" QState.init)).delivered
        = [["a", "b"]]) ∧
    ((QState.push 2 100 0 "a" QState.init).timer = some 100) ∧
    ((QState.push 2 100 7 "c"
        { QState.init with flushing := true, inFlight := ["a", "b"] }).inFlight
        = ["a", "b"] ∧
     (QState.push 2 100 7 "c"
        { QState.init with flushing := true, inFlight := ["a", "b"] }).buffer
        = ["c"]) := by
  have h1 := (queuePush_spec (T := String) 2 100).1 [QOp.push "a" 0, QOp.push "b" 5]
  have h2 := (queuePush_spec (T := String) 2 100).2.2.1
      (QState.push 2 100 0 "a" QState.init) "b" 5 (by decide) (by decide)
  have h3 := (queuePush_spec (T := String) 2 100).2.2.2.1 QState.init "a" 0
      (by decide) (by decide)
  have h4 := (queuePush_spec (T := String) 2 100).2.2.2.2.2
      { QState.init with flushing := true, inFlight := ["a", "b"] } "c" 7 (by decide)
  refine ⟨h1, ?_, h3.1, h4.1, ?_⟩
  · rw [h2.1]
    decide
  · rw [h4.2.1]
    decide

/-- Helper: the sampling tail never changes the `process` invocation count. -/
lemma processTail_policyCalls (cfg : LoggerConfig) (env : Env) (record : LogRecord)
    (st : LoggerState) : (processTail cfg env record st).policyCalls = st.policyCalls := by
  unfold processTail
  by_cases h : shouldSample record.level (cfg.sampling.getD 1) env.rand = true <;>
    simp [h]

/-- Helper: each `process` invocation increments the ghost counter exactly
once. -/
lemma process_policyCalls (cfg : LoggerConfig) (env : Env) (record : LogRecord)
    (st : LoggerState) : (process cfg env record st).policyCalls = st.policyCalls + 1 := by
  unfold process
  cases hred : cfg.redactor <;> cases hrl : st.rl <;>
    simp [hrl, processTail_policyCalls] <;> split <;>
    simp [processTail_policyCalls]

/-- Helper: at rate 1 every level passes sampling, given a draw below 1. -/
lemma shouldSample_rate_one (l : Level) (rand : ℚ) (h : rand < 1) :
    shouldSample l 1 rand = true := by
  cases l <;> simp [shouldSample, h]

/-- Helper: with no rate limiter and no sampling configured, `process`
pushes exactly the (possibly redacted) record onto the queue. -/
lemma process_pushedLog_default (cfg : LoggerConfig) (env : Env) (record : LogRecord)
    (st : LoggerState) (hrl : st.rl = none) (hs : cfg.sampling = none)
    (hrand : env.rand < 1) :
    (process cfg env record st).q.pushedLog
      = st.q.pushedLog ++
          [(match cfg.redactor with
            | some f => f record
            | none => record)] := by
  have hss : ∀ l, shouldSample l 1 env.rand = true :=
    fun l => shouldSample_rate_one l env.rand hrand
  cases hred : cfg.redactor <;>
    simp [process, processTail, hrl, hs, hred, hss, push_pushedLog]

/-- C1: every severity method equals the generic gated call; when the
call's rank is strictly below the threshold's rank the state (queue and
rate limiter) is untouched and `process` does not run; the policy pipeline
runs exactly when rank(level) ≥ rank(threshold); and with no rate limiter
and no sampling configured, the built (and possibly redacted) record is
queued iff rank(level) ≥ rank(threshold). -/
theorem levelGate_spec (level : Level) (cfg : LoggerConfig) (msg : String)
    (ctx : Option (List (String × JVal))) (env : Env) (st : LoggerState) :
    severityMethod level cfg msg ctx env st = logAt cfg level msg ctx env st ∧
    (rank level < rank cfg.level → severityMethod level cfg msg ctx env st = st) ∧
    ((severityMethod level cfg msg ctx env st).policyCalls
        = st.policyCalls + (if rank level ≥ rank cfg.level then 1 else 0)) ∧
    (st.rl = none → cfg.sampling = none → env.rand < 1 →
        (severityMethod level cfg msg ctx env st).q.pushedLog
          = st.q.pushedLog ++
              (if rank level ≥ rank cfg.level then
                [(match cfg.redactor with
                  | some f => f (buildRecord cfg level msg ctx env.now)
                  | none => buildRecord cfg level msg ctx env.now)]
               else [])) := by
  have hglue : severityMethod level cfg msg ctx env st = logAt cfg level msg ctx env st := by
    cases level <;> rfl
  refine ⟨hglue, ?_, ?_, ?_⟩
  · intro h
    rw [hglue]
    unfold logAt
    have hc : ¬(allowed level cfg.level = true) := by
      simp only [allowed, decide_eq_true_eq, ge_iff_le, not_le]
      omega
    rw [if_neg hc]
  · rw [hglue]
    unfold logAt
    by_cases hc : allowed level cfg.level = true
    · have hge : rank cfg.level ≤ rank level := by
        simpa [allowed] using hc
      rw [if_pos hc, process_policyCalls, if_pos hge]
    · have hge : ¬(rank cfg.level ≤ rank level) := by
        simpa [allowed] using hc
      rw [if_neg hc, if_neg hge, Nat.add_zero]
  · intro hrl hs hrand
    rw [hglue]
    unfold logAt
    by_cases hc : allowed level cfg.level = true
    · have hge : rank cfg.level ≤ rank level := by
        simpa [allowed] using hc
      rw [if_pos hc, if_pos hge]
      exact process_pushedLog_default cfg env _ st hrl hs hrand
    · have hge : ¬(rank cfg.level ≤ rank level) := by
        simpa [allowed] using hc
      rw [if_neg hc, if_neg hge, List.append_nil]

/-- C1 witness: against threshold `info`, a `debug` call leaves the state
untouched and an `error` call queues exactly the built record. -/
theorem levelGate_spec_witness :
    (Logger.debug sampleCfg "m" none ⟨0, 1/2⟩ (LoggerState.init sampleCfg 0)
        = LoggerState.init sampleCfg 0) ∧
    ((Logger.error sampleCfg "m" none ⟨0, 1/2⟩ (LoggerState.init sampleCfg 0)).q.pushedLog
        = (LoggerState.init sampleCfg 0).q.pushedLog ++
            (if rank .error ≥ rank sampleCfg.level then
              [(match sampleCfg.redactor with
                | some f => f (buildRecord sampleCfg .error "m" none 0)
                | none => buildRecord sampleCfg .error "m" none 0)]
             else [])) :=
  ⟨(levelGate_spec .debug sampleCfg "m" none ⟨0, 1/2⟩ (LoggerState.init sampleCfg 0)).2.1
      (by decide),
   (levelGate_spec .error sampleCfg "m" none ⟨0, 1/2⟩ (LoggerState.init sampleCfg 0)).2.2.2
      rfl rfl (by norm_num)⟩

/-- Helper: field lookup after redaction replaces sensitive values with the
marker and redacts the rest, keeping every key. -/
lemma lookupField_redactFields (keys : List String) (fs : List (String × JVal)) (k : String) :
    lookupField (redactFields keys fs) k
      = (lookupField fs k).map
          (fun v => if keys.contains (toLowerStr k) then JVal.str "[REDACTED]"
                    else redactValue keys v) := by
  induction fs with
  | nil => rfl
  | cons kv fs ih =>
      obtain ⟨k0, v⟩ := kv
      by_cases h : k0 = k
      · subst h
        simp [redactFields, lookupField]
      · simp [redactFields, lookupField, h, ih]

/-- Helper: redacting an array redacts elementwise. -/
lemma getElem?_redactList (keys : List String) (xs : List JVal) (i : Nat) :
    (redactList keys xs)[i]? = xs[i]?.map (redactValue keys) := by
  induction xs generalizing i with
  | nil => cases i <;> rfl
  | cons x xs ih =>
      cases i with
      | zero => simp [redactList]
      | succ n => simpa [redactList] using ih n

/-- Helper: redaction preserves the key list of every mapping it rewrites. -/
lemma redactFields_keys (keys : List String) (fs : List (String × JVal)) :
    (redactFields keys fs).map Prod.fst = fs.map Prod.fst := by
  induction fs with
  | nil => rfl
  | cons kv fs ih => simp [redactFields, ih]

/-- Helper: redaction preserves the length of every array it rewrites. -/
lemma redactList_length (keys : List String) (xs : List JVal) :
    (redactList keys xs).length = xs.length := by
  induction xs with
  | nil => rfl
  | cons x xs ih => simp [redactList, ih]

/-- Helper: along a path whose keys are all non-sensitive, a final
sensitive key's value becomes the redaction marker. -/
lemma lookup_redact_sensitive (keys : List String) :
    ∀ (p : List PathEl) (v : JVal) (k : String), cleanPath keys p →
      keys.contains (toLowerStr k) = true →
      (lookup v (p ++ [PathEl.key k])).isSome = true →
      lookup (redactValue keys v) (p ++ [PathEl.key k])
        = some (JVal.str "[REDACTED]") := by
  intro p
  induction p with
  | nil =>
      intro v k _ hk hsome
      have hk' : toLowerStr k ∈ keys := by simpa using hk
      cases v with
      | obj fs =>
          cases hf : lookupField fs k with
          | none => simp [lookup, hf] at hsome
          | some w => simp [lookup, redactValue, lookupField_redactFields, hf, hk']
      | null => simp [lookup] at hsome
      | bool b => simp [lookup] at hsome
      | num n => simp [lookup] at hsome
      | str s => simp [lookup] at hsome
      | arr xs => simp [lookup] at hsome
  | cons el p ih =>
      intro v k hclean hk hsome
      have hclean' : cleanPath keys p :=
        fun e he k' h => hclean e (List.mem_cons_of_mem _ he) k' h
      cases el with
      | key k0 =>
          have hk0 : keys.contains (toLowerStr k0) = false :=
            hclean (PathEl.key k0) (List.mem_cons_self _ _) k0 rfl
          have hk0' : toLowerStr k0 ∉ keys := by simpa using hk0
          cases v with
          | obj fs =>
              cases hf : lookupField fs k0 with
              | none => simp [lookup, hf] at hsome
              | some w =>
                  have hrec := ih w k hclean' hk (by simpa [lookup, hf] using hsome)
                  simp [lookup, redactValue, lookupField_redactFields, hf, hk0', hrec]
          | null => simp [lookup] at hsome
          | bool b => simp [lookup] at hsome
          | num n => simp [lookup] at hsome
          | str s => simp [lookup] at hsome
          | arr xs => simp [lookup] at hsome
      | idx i =>
          cases v with
          | arr xs =>
              cases hx : xs[i]? with
              | none => simp [lookup, hx] at hsome
              | some w =>
                  have hrec := ih w k hclean' hk (by simpa [lookup, hx] using hsome)
                  simp [lookup, redactValue, getElem?_redactList, hx, hrec]
          | null => simp [lookup] at hsome
          | bool b => simp [lookup] at hsome
          | num n => simp [lookup] at hsome
          | str s => simp [lookup] at hsome
          | obj fs => simp [lookup] at hsome

/-- Helper: a non-container value sitting at a path with no sensitive key
anywhere survives redaction unchanged. -/
lemma lookup_redact_clean (keys : List String) :
    ∀ (p : List PathEl) (v w : JVal), cleanPath keys p →
      lookup v p = some w → w.isContainer = false →
      lookup (redactValue keys v) p = some w := by
  intro p
  induction p with
  | nil =>
      intro v w _ hv hw
      simp [lookup] at hv
      subst hv
      cases v with
      | null => rfl
      | bool b => rfl
      | num n => rfl
      | str s => rfl
      | arr xs => simp [JVal.isContainer] at hw
      | obj fs => simp [JVal.isContainer] at hw
  | cons el p ih =>
      intro v w hclean hv hw
      have hclean' : cleanPath keys p :=
        fun e he k' h => hclean e (List.mem_cons_of_mem _ he) k' h
      cases el with
      | key k0 =>
          have hk0 : keys.contains (toLowerStr k0) = false :=
            hclean (PathEl.key k0) (List.mem_cons_self _ _) k0 rfl
          have hk0' : toLowerStr k0 ∉ keys := by simpa using hk0
          cases v with
          | obj fs =>
              cases hf : lookupField fs k0 with
              | none => simp [lookup, hf] at hv
              | some u =>
                  have hrec := ih u w hclean' (by simpa [lookup, hf] using hv) hw
                  simp [lookup, redactValue, lookupField_redactFields, hf, hk0', hrec]
          | null => simp [lookup] at hv
          | bool b => simp [lookup] at hv
          | num n => simp [lookup] at hv
          | str s => simp [lookup] at hv
          | arr xs => simp [lookup] at hv
      | idx i =>
          cases v with
          | arr xs =>
              cases hx : xs[i]? with
              | none => simp [lookup, hx] at hv
              | some u =>
                  have hrec := ih u w hclean' (by simpa [lookup, hx] using hv) hw
                  simp [lookup, redactValue, getElem?_redactList, hx, hrec]
          | null => simp [lookup] at hv
          | bool b => simp [lookup] at hv
          | num n => simp [lookup] at hv
          | str s => simp [lookup] at hv
          | obj fs => simp [lookup] at hv

/-- C6: the redactor rewrites only the record's `ctx`; at every mapping the
key list is preserved and at every array the length is preserved (no key
removed); along any path free of sensitive keys, a final key whose
lower-cased form lies in the configured set has its value replaced by
`'[REDACTED]'` while non-container values keep their value; on the spec's
example, `password` and `nested.token` are masked and `safe` is kept. -/
theorem redactor_spec (extra : List String) (r : LogRecord) :
    (∀ fs, r.ctx = some fs →
        makeRedactor extra r
          = { r with ctx := some (redactFields (sensitiveKeySet extra) fs) }) ∧
    (∀ fs, (redactFields (sensitiveKeySet extra) fs).map Prod.fst = fs.map Prod.fst) ∧
    (∀ xs, (redactList (sensitiveKeySet extra) xs).length = xs.length) ∧
    (∀ v p k, cleanPath (sensitiveKeySet extra) p →
        (sensitiveKeySet extra).contains (toLowerStr k) = true →
        (lookup v (p ++ [PathEl.key k])).isSome = true →
        lookup (redactValue (sensitiveKeySet extra) v) (p ++ [PathEl.key k])
          = some (JVal.str "[REDACTED]")) ∧
    (∀ v p w, cleanPath (sensitiveKeySet extra) p → lookup v p = some w →
        w.isContainer = false →
        lookup (redactValue (sensitiveKeySet extra) v) p = some w) ∧
    (lookupField (redactFields (sensitiveKeySet []) exampleCtx) "password"
        = some (JVal.str "[REDACTED]") ∧
     lookup (JVal.obj (redactFields (sensitiveKeySet []) exampleCtx))
        [PathEl.key "nested", PathEl.key "token"] = some (JVal.str "[REDACTED]") ∧
     lookupField (redactFields (sensitiveKeySet []) exampleCtx) "safe"
        = some (JVal.str "z")) := by
  refine ⟨?_, redactFields_keys _, redactList_length _,
          fun v p k => lookup_redact_sensitive _ p v k,
          fun v p w => lookup_redact_clean _ p v w, rfl, rfl, rfl⟩
  intro fs hfs
  simp [makeRedactor, hfs]

/-- C6 witness: redacting the spec's example masks `nested.token` through
one level of nesting. -/
theorem redactor_spec_witness :
    lookup (redactValue (sensitiveKeySet []) (JVal.obj exampleCtx))
        ([PathEl.key "nested"] ++ [PathEl.key "token"])
      = some (JVal.str "[REDACTED]") := by
  have hclean : cleanPath (sensitiveKeySet []) [PathEl.key "nested"] := by
    intro el hel k hk
    have : el = PathEl.key "nested" := by simpa using hel
    subst this
    cases hk
    decide
  exact (redactor_spec [] sampleRecord).2.2.2.1
    (JVal.obj exampleCtx) [PathEl.key "nested"] "token" hclean (by decide) (by decide)

end RNLogger
